import Mathlib

/-!
Shallow embedding of `scripts/remove-debug-logs.py` (function
`remove_debug_logs`, lines 11-96): a line-oriented scanner that removes
Go debug-logging statements from a file's content.

The Python function splits the content on newlines and walks the line list
with a cursor `i`, emitting kept lines into `result`.  Each iteration of the
outer `while i < len(lines)` loop is modelled by `step`; the outer loop
itself is modelled by the fuelled `stripRun` (the source loop can fail to
advance the cursor, so a fuel parameter is the faithful embedding; running
out of fuel yields `none`).  Python string operations are modelled on
character lists.
-/

/-- Python whitespace (the characters `str.strip()` / `str.rstrip()` remove). -/
def isPyWS (c : Char) : Bool :=
  c = ' ' || c = '\t' || c = '\n' || c = '\r' || c = '\x0b' || c = '\x0c'

/-- Python `s.rstrip()`, as a character list. -/
def pyRstrip (s : String) : List Char :=
  (s.toList.reverse.dropWhile isPyWS).reverse

/-- Python `s.strip()`, as a character list. -/
def pyStrip (s : String) : List Char :=
  (pyRstrip s).dropWhile isPyWS

/-- Substring containment on character lists (Python's `pat in s`). -/
def hasInfix (pat : List Char) : List Char → Bool
  | [] => pat.isEmpty
  | c :: rest => pat.isPrefixOf (c :: rest) || hasInfix pat rest

/-- Python `pat in s` for strings. -/
def pyIn (pat s : String) : Bool := hasInfix pat.toList s.toList

/-- Python `line.rstrip().endswith(')')` (source lines 24, 32, 53, 61). -/
def endsClose (line : String) : Bool := [')'].isSuffixOf (pyRstrip line)

/-- Python `line.strip().startswith(p)` (source lines 22, 40, 67, 73, 77, 79). -/
def strippedStarts (line : String) (p : String) : Bool :=
  p.toList.isPrefixOf (pyStrip line)

/-- Source lines 30-36: multi-line direct `.Debug(` call.  Starting at absolute
index `k` (with `rest = lines.drop k`), skip until a line whose `rstrip()`
ends with `)` and return the cursor just past it; if no such line exists the
cursor ends at `len(lines)` (`k + rest.length`). -/
def skipToCloseEnd : List String → Nat → Nat
  | [], k => k
  | l :: rest, k => if endsClose l then k + 1 else skipToCloseEnd rest (k + 1)

/-- Source lines 58-64: inside the chain lookahead, a `.Debug(` line that does
not close on the same line; scan for the first closing line and return the
cursor just past it.  When no closing line exists the source never assigns
`i`, so the caller's cursor stays untouched: that case is `none`. -/
def findCloseEnd : List String → Nat → Option Nat
  | [], _ => none
  | l :: rest, k => if endsClose l then some (k + 1) else findCloseEnd rest (k + 1)

/-- Outcome of the chain lookahead loop (source lines 48-81). -/
inductive ScanResult where
  | debugFound (newCursor : Option Nat)
  | noDebug
deriving DecidableEq, Repr

/-- Source lines 48-81: the chain lookahead loop, scanning `rest = lines.drop j`
with `j` the absolute index of the scanned line.  `debugFound c` is
`has_debug = True` with resulting cursor `c` (`none` = cursor untouched);
`noDebug` is every exit with `has_debug = False`. -/
def scanChain : List String → Nat → ScanResult
  | [], _ => .noDebug
  | l :: rest, j =>
    if pyIn ".Debug(" l then
      if endsClose l then .debugFound (some (j + 1))
      else .debugFound (findCloseEnd rest (j + 1))
    else if strippedStarts l "\x7d)" && !(pyIn ".Debug(" l) then .noDebug
    else if pyStrip l == "\x7d)".toList then scanChain rest (j + 1)
    else if strippedStarts l "\"" && !(pyIn ".Debug(" l) then scanChain rest (j + 1)
    else if !(strippedStarts l "\"" || pyStrip l == "\x7d".toList
              || strippedStarts l "\x7d)") then .noDebug
    else scanChain rest (j + 1)

/-- One iteration of the main `while i < len(lines)` loop (source lines 17-94),
for `line = lines[i]`: the lines appended to `result` and the new cursor. -/
def step (lines : List String) (i : Nat) (line : String) : List String × Nat :=
  if pyIn ".Debug(" line && !(strippedStarts line "//") then
    if endsClose line then ([], i + 1)
    else ([], skipToCloseEnd (lines.drop (i + 1)) (i + 1))
  else if (pyIn ".WithFields(log.Fields\x7b" line || pyIn ".WithField(" line)
      && !(strippedStarts line "//") then
    match scanChain (lines.drop (i + 1)) (i + 1) with
    | .debugFound (some k) => ([], k)
    | .debugFound none => ([], i)
    | .noDebug => ([line], i + 1)
  else ([line], i + 1)

/-- The main loop of `remove_debug_logs`, fuelled.  `none` means the fuel ran
out before the loop finished (the source loop does not always terminate). -/
def stripRun (lines : List String) : Nat → Nat → List String → Option (List String)
  | 0, _, _ => none
  | fuel + 1, i, acc =>
    match lines[i]? with
    | none => some acc
    | some line =>
      let s := step lines i line
      stripRun lines fuel s.2 (acc ++ s.1)

/-- `remove_debug_logs` at the line level: the spec's
`strip(lines: sequence of string) -> sequence of string` contract. -/
def strip (fuel : Nat) (lines : List String) : Option (List String) :=
  stripRun lines fuel 0 []

/-- Python `content.split('\n')` (accumulator holds the current line reversed). -/
def splitNlAux : List Char → List Char → List String
  | [], cur => [String.mk cur.reverse]
  | c :: cs, cur =>
    if c = '\n' then String.mk cur.reverse :: splitNlAux cs []
    else splitNlAux cs (c :: cur)

/-- Python `content.split('\n')`. -/
def pySplit (s : String) : List String := splitNlAux s.toList []

/-- Source lines 11-96: `remove_debug_logs(content)` — split on newlines, run
the loop, re-join with newlines (fuelled like `stripRun`). -/
def remove_debug_logs (fuel : Nat) (content : String) : Option String :=
  (strip fuel (pySplit content)).map (fun ls => String.intercalate "\n" ls)

example : strip 4 ["a", "log.Debug(\"x\")", "b"] = some ["a", "b"] := by decide

example : strip 6 ["a", "log.Debug(", "  \"x\",", ")", "b"] = some ["a", "b"] := by
  decide

/-! ### Unfolding lemmas for the fuelled main loop -/

theorem stripRun_succ_none {lines : List String} {fuel i : Nat} {acc : List String}
    (h : lines[i]? = none) :
    stripRun lines (fuel + 1) i acc = some acc := by
  simp [stripRun, h]

theorem stripRun_succ_some {lines : List String} {fuel i : Nat} {acc : List String}
    {line : String} (h : lines[i]? = some line) :
    stripRun lines (fuel + 1) i acc
      = stripRun lines fuel (step lines i line).2 (acc ++ (step lines i line).1) := by
  simp [stripRun, h]

/-! ### Cursor monotonicity of the scanning helpers -/

theorem skipToCloseEnd_ge (rest : List String) : ∀ k : Nat, k ≤ skipToCloseEnd rest k := by
  induction rest with
  | nil => intro k; simp [skipToCloseEnd]
  | cons l rest ih =>
    intro k
    rw [skipToCloseEnd]
    split_ifs
    · omega
    · have hh := ih (k + 1); omega

theorem findCloseEnd_ge (rest : List String) :
    ∀ k m : Nat, findCloseEnd rest k = some m → k ≤ m := by
  induction rest with
  | nil => intro k m h; simp [findCloseEnd] at h
  | cons l rest ih =>
    intro k m h
    rw [findCloseEnd] at h
    split_ifs at h
    · simp only [Option.some.injEq] at h; omega
    · have hh := ih (k + 1) m h; omega

theorem scanChain_ge (rest : List String) :
    ∀ j k : Nat, scanChain rest j = ScanResult.debugFound (some k) → j ≤ k := by
  induction rest with
  | nil => intro j k h; simp [scanChain] at h
  | cons l rest ih =>
    intro j k h
    rw [scanChain] at h
    split_ifs at h <;>
      first
        | (simp only [ScanResult.debugFound.injEq, Option.some.injEq] at h; omega)
        | (simp only [ScanResult.debugFound.injEq] at h;
           have hh := findCloseEnd_ge rest (j + 1) k h; omega)
        | exact ScanResult.noConfusion h
        | (have hh := ih (j + 1) k h; omega)

/-- Each loop iteration either emits nothing and does not move the cursor
backwards, or emits exactly the current line and advances the cursor by one. -/
theorem step_cases (lines : List String) (i : Nat) (line : String) :
    ((step lines i line).1 = [] ∧ i ≤ (step lines i line).2)
    ∨ step lines i line = ([line], i + 1) := by
  rw [step]
  split_ifs with h1 h2 h3
  · exact Or.inl ⟨by simp, by omega⟩
  · refine Or.inl ⟨by simp, ?_⟩
    have hh := skipToCloseEnd_ge (lines.drop (i + 1)) (i + 1)
    omega
  · cases hscan : scanChain (lines.drop (i + 1)) (i + 1) with
    | debugFound c =>
      cases c with
      | some k =>
        simp only [hscan]
        refine Or.inl ⟨by simp, ?_⟩
        have hh := scanChain_ge _ _ _ hscan
        omega
      | none =>
        simp only [hscan]
        exact Or.inl ⟨by simp, by omega⟩
    | noDebug => simp [hscan]
  · simp

theorem drop_sublist_of_le {α : Type} {i i' : Nat} (h : i ≤ i') (l : List α) :
    List.Sublist (l.drop i') (l.drop i) := by
  have heq : l.drop i' = (l.drop i).drop (i' - i) := by
    rw [List.drop_drop]
    congr 1
    omega
  rw [heq]
  exact List.drop_sublist _ _

/-! ### The output is a subsequence of the input -/

theorem stripRun_sublist (lines : List String) :
    ∀ (fuel i : Nat) (acc out : List String), stripRun lines fuel i acc = some out →
      ∃ t, out = acc ++ t ∧ List.Sublist t (lines.drop i) := by
  intro fuel
  induction fuel with
  | zero => intro i acc out h; exact absurd h (by simp [stripRun])
  | succ n ih =>
    intro i acc out h
    cases hline : lines[i]? with
    | none =>
      rw [stripRun_succ_none hline] at h
      refine ⟨[], ?_, List.nil_sublist _⟩
      simpa using h.symm
    | some line =>
      rw [stripRun_succ_some hline] at h
      obtain ⟨t, ht, hsub⟩ := ih _ _ _ h
      have hi : i < lines.length := by
        by_contra hc
        rw [List.getElem?_eq_none (by omega)] at hline
        exact Option.noConfusion hline
      have hgl : line = lines[i] := by
        rw [List.getElem?_eq_getElem hi] at hline
        exact (Option.some.injEq _ _ ▸ hline).symm
      rcases step_cases lines i line with ⟨hem, hle⟩ | hstep
      · refine ⟨t, ?_, ?_⟩
        · rw [ht, hem, List.append_nil]
        · exact List.Sublist.trans hsub (drop_sublist_of_le hle lines)
      · refine ⟨line :: t, ?_, ?_⟩
        · rw [ht, hstep]
          simp
        · rw [hstep] at hsub
          rw [List.drop_eq_getElem_cons hi, ← hgl]
          exact List.Sublist.cons₂ line hsub

/-! ### Identity on marker-free input -/

theorem scanChain_noMarker (rest : List String)
    (h : ∀ l ∈ rest, pyIn ".Debug(" l = false) :
    ∀ j : Nat, scanChain rest j = ScanResult.noDebug := by
  induction rest with
  | nil => intro j; rfl
  | cons l rest ih =>
    intro j
    have hl : pyIn ".Debug(" l = false := h l (List.mem_cons_self _ _)
    have hr : ∀ l' ∈ rest, pyIn ".Debug(" l' = false :=
      fun l' hl' => h l' (List.mem_cons_of_mem _ hl')
    rw [scanChain]
    simp only [hl, Bool.false_eq_true, if_false, Bool.not_false, Bool.and_true]
    split_ifs <;> first | rfl | exact ih hr (j + 1)

theorem step_noMarker (lines : List String) (i : Nat) (line : String)
    (hl : pyIn ".Debug(" line = false)
    (hrest : ∀ l ∈ lines.drop (i + 1), pyIn ".Debug(" l = false) :
    step lines i line = ([line], i + 1) := by
  rw [step]
  simp only [hl, Bool.false_and, Bool.false_eq_true, if_false]
  split_ifs with h1
  · rw [scanChain_noMarker _ hrest (i + 1)]
  · rfl

theorem stripRun_noMarker (lines : List String)
    (h : ∀ l ∈ lines, pyIn ".Debug(" l = false) :
    ∀ (fuel i : Nat) (acc : List String), lines.length - i < fuel →
      stripRun lines fuel i acc = some (acc ++ lines.drop i) := by
  intro fuel
  induction fuel with
  | zero => intro i acc hfuel; omega
  | succ n ih =>
    intro i acc hfuel
    by_cases hi : i < lines.length
    · have hline : lines[i]? = some lines[i] := List.getElem?_eq_getElem hi
      rw [stripRun_succ_some hline]
      have hmem : lines[i] ∈ lines := List.getElem_mem _
      have hrest : ∀ l ∈ lines.drop (i + 1), pyIn ".Debug(" l = false :=
        fun l hl => h l (List.mem_of_mem_drop hl)
      rw [step_noMarker lines i lines[i] (h _ hmem) hrest]
      rw [ih (i + 1) (acc ++ [lines[i]]) (by omega)]
      rw [List.append_assoc, List.singleton_append, ← List.drop_eq_getElem_cons hi]
    · have hline : lines[i]? = none := List.getElem?_eq_none (by omega)
      rw [stripRun_succ_none hline]
      rw [List.drop_eq_nil_of_le (by omega), List.append_nil]

/-! ### Declarative form of the direct-removal scan -/

theorem skipToCloseEnd_eq (rest : List String) :
    ∀ k : Nat,
      skipToCloseEnd rest k =
        match rest.findIdx? (fun l => endsClose l) k with
        | some m => m + 1
        | none => k + rest.length := by
  induction rest with
  | nil => intro k; simp [skipToCloseEnd]
  | cons l rest ih =>
    intro k
    rw [skipToCloseEnd]
    split_ifs with hl
    · simp [List.findIdx?_cons, hl]
    · rw [ih (k + 1)]
      simp only [List.findIdx?_cons, hl, Bool.false_eq_true, if_false]
      cases rest.findIdx? (fun l => endsClose l) (k + 1) with
      | none => simp only [List.length_cons]; ring
      | some m => rfl

/-! ## Claims -/

theorem stripRun_unclosedChain (fuel : Nat) :
    ∀ acc : List String, stripRun ["x.WithField(a).", "y.Debug("] fuel 0 acc = none := by
  induction fuel with
  | zero => intro acc; rfl
  | succ n ih =>
    intro acc
    have hline : (["x.WithField(a).", "y.Debug("] : List String)[0]?
        = some "x.WithField(a)." := by decide
    rw [stripRun_succ_some hline]
    have hstep : step ["x.WithField(a).", "y.Debug("] 0 "x.WithField(a)." = ([], 0) := by
      decide
    rw [hstep]
    simpa using ih acc

/-- C1: the claim that `remove_debug_logs` always terminates with some output
is refuted by the code: on the two-line content `x.WithField(a).` +
`y.Debug(` the chain lookahead finds the debug marker, the inner scan for a
closing line reaches end of input without ever assigning the cursor, and the
outer loop repeats forever at the same cursor.  In the fuelled embedding the
run returns `none` for every fuel. -/
theorem remove_debug_logs_diverges_on_unclosed_chain :
    ∀ fuel : Nat, remove_debug_logs fuel "x.WithField(a).\ny.Debug(" = none := by
  intro fuel
  have hsplit : pySplit "x.WithField(a).\ny.Debug(" = ["x.WithField(a).", "y.Debug("] := by
    decide
  rw [remove_debug_logs, strip, hsplit, stripRun_unclosedChain fuel []]
  rfl

/-- C2 counterexample: the spec example input
`["a", "log.WithField(\"k\", v).", "  Debug(\"msg\")", "b"]` is returned
unchanged, not as `["a", "b"]`: the continuation line `  Debug("msg")` does
not contain the marker `.Debug(` (no leading dot), so the lookahead breaks as
a non-match. -/
theorem strip_chain_example_without_dot_unchanged :
    strip 6 ["a", "log.WithField(\"k\", v).", "  Debug(\"msg\")", "b"]
      = some ["a", "log.WithField(\"k\", v).", "  Debug(\"msg\")", "b"]
    ∧ strip 6 ["a", "log.WithField(\"k\", v).", "  Debug(\"msg\")", "b"]
      ≠ some ["a", "b"] := by decide

/-- C2 amended: a field-attachment chain whose scanned continuation contains
the full debug-call marker `.Debug(` (dot included) is removed from the
candidate line through the end of the debug call: when the lookahead returns
a committed cursor `k`, the step emits nothing and jumps to `k`. -/
theorem step_chain_debug_commit (lines : List String) (i k : Nat) (line : String)
    (hnd : pyIn ".Debug(" line = false)
    (hop : (pyIn ".WithFields(log.Fields\x7b" line || pyIn ".WithField(" line) = true)
    (hcom : strippedStarts line "//" = false)
    (hscan : scanChain (lines.drop (i + 1)) (i + 1) = ScanResult.debugFound (some k)) :
    step lines i line = ([], k) := by
  rw [step]
  rw [if_neg (by rw [hnd]; simp)]
  rw [if_pos (by rw [hop, hcom]; rfl)]
  rw [hscan]

/-- Witness for C2 amended: with the dot present on the continuation line the
chain is removed entirely and the remaining lines survive. -/
theorem step_chain_debug_commit_witness :
    step ["a", "log.WithField(\"k\", v).", "  .Debug(\"msg\")", "b"] 1
        "log.WithField(\"k\", v)." = ([], 3)
    ∧ strip 6 ["a", "log.WithField(\"k\", v).", "  .Debug(\"msg\")", "b"]
      = some ["a", "b"] :=
  ⟨step_chain_debug_commit _ 1 3 _ (by decide) (by decide) (by decide) (by decide),
   by decide⟩

/-- C3 counterexample: `strip` is not idempotent.  On the input below, pass
one keeps the first chain candidate (its lookahead breaks on the second
chain line) and then removes the second chain together with its debug line;
the surviving comment line containing the marker now sits directly after the
kept candidate, so pass two removes both remaining lines. -/
theorem strip_not_idempotent_cex :
    strip 6 ["a.WithField(x).", "b.WithField(y).", "c.Debug(\"z\")", "// d.Debug(\"m\")"]
      = some ["a.WithField(x).", "// d.Debug(\"m\")"]
    ∧ strip 6 ["a.WithField(x).", "// d.Debug(\"m\")"] = some []
    ∧ some ([] : List String) ≠ some ["a.WithField(x).", "// d.Debug(\"m\")"] := by decide

/-- C3 amended: the second pass is the identity whenever the first pass
leaves no line containing the debug-call marker; idempotence can fail only
when a marker survives pass one (which happens for comment lines containing
the marker). -/
theorem strip_second_pass_identity (fuel : Nat) (lines out : List String)
    (_h1 : strip fuel lines = some out)
    (h2 : ∀ l ∈ out, pyIn ".Debug(" l = false) :
    strip (out.length + 1) out = some out := by
  rw [strip, stripRun_noMarker out h2 (out.length + 1) 0 [] (by omega)]
  simp

/-- Witness for C3 amended. -/
theorem strip_second_pass_identity_witness :
    strip 2 ["a"] = some ["a"]
    ∧ strip ((["a"] : List String).length + 1) ["a"] = some ["a"] :=
  ⟨by decide, strip_second_pass_identity 2 ["a"] ["a"] (by decide) (by decide)⟩

/-- C4: a lookahead that terminates as a non-match keeps the candidate line
only and resumes processing from the line immediately after the candidate,
removing nothing at that step. -/
theorem step_chain_noDebug_keeps_candidate (lines : List String) (i : Nat) (line : String)
    (hnd : pyIn ".Debug(" line = false)
    (hop : (pyIn ".WithFields(log.Fields\x7b" line || pyIn ".WithField(" line) = true)
    (hcom : strippedStarts line "//" = false)
    (hscan : scanChain (lines.drop (i + 1)) (i + 1) = ScanResult.noDebug) :
    step lines i line = ([line], i + 1) := by
  rw [step]
  rw [if_neg (by rw [hnd]; simp)]
  rw [if_pos (by rw [hop, hcom]; rfl)]
  rw [hscan]

/-- Witness for C4: the spec example chain resolving to `Info` is preserved
verbatim, all four lines byte-identical. -/
theorem step_chain_noDebug_keeps_candidate_witness :
    step ["a", "log.WithField(\"k\", v).", "  Info(\"msg\")", "b"] 1
        "log.WithField(\"k\", v)." = (["log.WithField(\"k\", v)."], 2)
    ∧ strip 6 ["a", "log.WithField(\"k\", v).", "  Info(\"msg\")", "b"]
      = some ["a", "log.WithField(\"k\", v).", "  Info(\"msg\")", "b"] :=
  ⟨step_chain_noDebug_keeps_candidate _ 1 _ (by decide) (by decide) (by decide) (by decide),
   by decide⟩

/-- C5 counterexample: a scanned line that is purely the closing
brace-and-parenthesis token does not keep the lookahead inside the candidate
construct; the scan stops immediately as a non-match, so a debug marker on a
later line is never reached and nothing is removed (had scanning continued
as the claim states, the whole range would have been removed). -/
theorem scanChain_closingBrace_cex :
    scanChain ["\x7d)", "// y.Debug(\"m\")"] 1 = ScanResult.noDebug
    ∧ strip 5 ["x.WithField(a).", "\x7d)", "// y.Debug(\"m\")"]
        = some ["x.WithField(a).", "\x7d)", "// y.Debug(\"m\")"] := by decide

/-- C5 amended: a scanned line whose stripped form starts with the closing
brace-and-parenthesis token and does not contain the debug marker terminates
the lookahead immediately as a non-match (the source branch that would skip
over an exact such token is unreachable dead code). -/
theorem scanChain_closingBrace_noDebug (l : String) (rest : List String) (j : Nat)
    (h1 : strippedStarts l "\x7d)" = true)
    (h2 : pyIn ".Debug(" l = false) :
    scanChain (l :: rest) j = ScanResult.noDebug := by
  rw [scanChain]
  rw [if_neg (by rw [h2]; simp)]
  rw [if_pos (by rw [h1, h2]; rfl)]

/-- Witness for C5 amended. -/
theorem scanChain_closingBrace_noDebug_witness :
    scanChain ["\x7d)", "z"] 5 = ScanResult.noDebug :=
  scanChain_closingBrace_noDebug "\x7d)" ["z"] 5 (by decide) (by decide)

/-- C6: on input in which no line contains the debug-call marker, `strip` is
the identity. -/
theorem strip_noMarker_identity (lines : List String)
    (h : ∀ l ∈ lines, pyIn ".Debug(" l = false) :
    strip (lines.length + 1) lines = some lines := by
  rw [strip, stripRun_noMarker lines h (lines.length + 1) 0 [] (by omega)]
  simp

/-- Witness for C6. -/
theorem strip_noMarker_identity_witness :
    strip ((["a", "b"] : List String).length + 1) ["a", "b"] = some ["a", "b"] :=
  strip_noMarker_identity ["a", "b"] (by decide)

/-- C7: a non-comment line containing the debug-call marker is dropped; if
the line (ignoring trailing whitespace) ends with a closing parenthesis the
cursor advances past exactly that line, otherwise past the first subsequent
line ending with a closing parenthesis inclusive, or to end of input if no
closing line exists. -/
theorem step_direct_extent (lines : List String) (i : Nat) (hi : i < lines.length)
    (hmark : pyIn ".Debug(" lines[i] = true)
    (hcom : strippedStarts lines[i] "//" = false) :
    step lines i lines[i] =
      ([], if endsClose lines[i] then i + 1
           else
             match (lines.drop (i + 1)).findIdx? (fun l => endsClose l) (i + 1) with
             | some m => m + 1
             | none => lines.length) := by
  rw [step]
  rw [if_pos (by rw [hmark, hcom]; rfl)]
  split_ifs with hc
  · rfl
  · rw [skipToCloseEnd_eq]
    cases hidx : (lines.drop (i + 1)).findIdx? (fun l => endsClose l) (i + 1) with
    | some m => rfl
    | none =>
      rw [List.length_drop, Nat.add_sub_cancel' (Nat.succ_le_of_lt hi)]

/-- Witness for C7: a multi-line direct call spanning three lines is dropped
through its closing line. -/
theorem step_direct_extent_witness :
    step ["log.Debug(", "x", ")", "b"] 0 "log.Debug(" = ([], 3) := by
  have h := step_direct_extent ["log.Debug(", "x", ")", "b"] 0 (by decide) (by decide)
      (by decide)
  exact h.trans (by decide)

/-- C8: every terminating run returns a subsequence of the input: retained
lines are byte-identical to their source lines and keep their relative
order; lines are kept verbatim or dropped whole, never edited or
reordered. -/
theorem strip_output_sublist (fuel : Nat) (lines out : List String)
    (h : strip fuel lines = some out) : List.Sublist out lines := by
  rw [strip] at h
  obtain ⟨t, ht, hsub⟩ := stripRun_sublist lines fuel 0 [] out h
  rw [ht, List.nil_append]
  simpa using hsub

/-- Witness for C8. -/
theorem strip_output_sublist_witness :
    List.Sublist ["a", "b"] ["a", "log.Debug(\"x\")", "b"] :=
  strip_output_sublist 4 ["a", "log.Debug(\"x\")", "b"] ["a", "b"] (by decide)

/-- C9: during chain lookahead, comment protection does not apply: a scanned
line containing the debug-call marker marks the chain as a debug statement
even when its stripped form begins with the comment marker, and the removal
end is determined exactly as for direct statements. -/
theorem scanChain_comment_marker_matches (l : String) (rest : List String) (j : Nat)
    (hmark : pyIn ".Debug(" l = true)
    (_hcom : strippedStarts l "//" = true) :
    scanChain (l :: rest) j
      = ScanResult.debugFound
          (if endsClose l then some (j + 1) else findCloseEnd rest (j + 1)) := by
  rw [scanChain]
  rw [if_pos hmark]
  split_ifs <;> rfl

/-- Witness for C9: a chain candidate followed by a commented-out debug call
is removed entirely, both lines gone. -/
theorem scanChain_comment_marker_matches_witness :
    scanChain ["// y.Debug(\"msg\")"] 1 = ScanResult.debugFound (some 2)
    ∧ strip 3 ["x.WithField(\"k\", v).", "// y.Debug(\"msg\")"] = some [] :=
  ⟨(scanChain_comment_marker_matches "// y.Debug(\"msg\")" [] 1 (by decide)
      (by decide)).trans (by decide),
   by decide⟩

/-- C10: a non-comment line containing both a field-attachment opener and the
debug-call marker is handled by the direct-statement rule, never by the
chain lookahead: the step emits nothing and the cursor follows the direct
rule (past this line alone when it ends with a closing parenthesis, else
past the first closing line), with no dependence on `scanChain`.  In
particular the one-line fluent form is dropped as a single-line direct
statement. -/
theorem step_direct_precedence (lines : List String) (i : Nat) (line : String)
    (hmark : pyIn ".Debug(" line = true)
    (_hop : (pyIn ".WithFields(log.Fields\x7b" line || pyIn ".WithField(" line) = true)
    (hcom : strippedStarts line "//" = false) :
    step lines i line =
      ([], if endsClose line then i + 1
           else skipToCloseEnd (lines.drop (i + 1)) (i + 1)) := by
  rw [step]
  rw [if_pos (by rw [hmark, hcom]; rfl)]
  split_ifs <;> rfl

/-- Witness for C10: the one-line fluent form is dropped alone, and a
multi-line fluent line (marker present, no closing parenthesis) is also
handled by the direct rule, its span ending at the next closing line. -/
theorem step_direct_precedence_witness :
    step ["log.WithField(\"k\", v).Debug(\"msg\")"] 0
        "log.WithField(\"k\", v).Debug(\"msg\")" = ([], 1)
    ∧ step ["log.WithField(x).Debug(", ")"] 0 "log.WithField(x).Debug(" = ([], 2)
    ∧ strip 2 ["log.WithField(\"k\", v).Debug(\"msg\")"] = some [] :=
  ⟨(step_direct_precedence _ 0 _ (by decide) (by decide) (by decide)).trans (by decide),
   (step_direct_precedence _ 0 _ (by decide) (by decide) (by decide)).trans (by decide),
   by decide⟩
